import Mathlib

/-!
# Verification of the deterministic selection policy (`SimpleCallback`)

A shallow embedding of `src/opencog/generate/SimpleCallback.cc` (repository
`generate`), the deterministic selection policy of the network-assembly
engine, together with proofs and refutations of the specification's claims
about it.

Handles of the atom substrate are modelled by their structural content:
a connector is an atom compared by structural equality, so it is modelled
as a `Nat`; a point is a node that may carry a uniqueness tag; a section
is a point together with its ordered connector sequence.  The maps
`HandleUCounter` (connector to unsigned counter, with `get(key, default)`,
`operator[]` and `erase`) and `HandleSeqMap` (connector to section list,
with default-inserting `operator[]`, `find` and `clear`) are modelled by
association lists.
-/

/-- A connector handle, compared by structural (atom) equality. -/
abbrev Conn := Nat

/-- A point: either an original node of the dictionary or frame, or a
uniquely tagged instance produced by `create_unique_section`. -/
inductive Pt where
  | base (n : Nat)
  | inst (n : Nat) (id : Nat)
  deriving DecidableEq, Repr

/-- A section: one point plus its ordered outgoing connectors.  This is the
structure `(Section point (ConnectorSeq ...))`; `getOutgoingAtom 1` of a
section atom is its connector sequence. -/
structure Sect where
  point : Pt
  conns : List Conn
  deriving DecidableEq, Repr

/-- A default section, used only to read a list at an index that the
source code has already bounds-checked. -/
def dummySect : Sect := { point := Pt.base 0, conns := [] }

/-- A frame: the policy only reads its set of currently open sections,
in the set's iteration order. -/
structure Frame where
  openSections : List Sect
  deriving DecidableEq, Repr

/-- Association list standing for the `std::map`-backed handle maps. -/
abbrev CMap (α : Type) := List (Conn × α)

/-- Lookup: the mapped value, if the key is present. -/
def CMap.get? {α : Type} : CMap α → Conn → Option α
  | [], _ => none
  | (k, v) :: rest, key => if k = key then some v else CMap.get? rest key

/-- `HandleUCounter::get(key, default)`: the stored value, or the default. -/
def CMap.getD {α : Type} (m : CMap α) (key : Conn) (d : α) : α :=
  (CMap.get? m key).getD d

/-- Remove a key (`std::map::erase`). -/
def CMap.erase {α : Type} : CMap α → Conn → CMap α
  | [], _ => []
  | (k, v) :: rest, key =>
    if k = key then CMap.erase rest key else (k, v) :: CMap.erase rest key

/-- `map[key] = v`: store a value under a key. -/
def CMap.set {α : Type} (m : CMap α) (key : Conn) (v : α) : CMap α :=
  (key, v) :: CMap.erase m key

/-- `map.find(key) != map.end()`: key membership. -/
def CMap.containsKey {α : Type} (m : CMap α) (key : Conn) : Bool :=
  (CMap.get? m key).isSome

/-- The `OpenSelections` struct: the per-frame open-section candidate-list
map `_opensect` and the per-frame open-section cursor map `_openit`. -/
structure OpenSelections where
  opensect : CMap (List Sect)
  openit : CMap Nat
  deriving DecidableEq, Repr

/-- The mutable state of a `SimpleCallback` object: the lexicon cursor map
`_lexlit` and its stack, the open-selection state `_opensel` and its stack,
and the counter that makes each section instance created from the lexicon
unique. -/
structure SCState where
  lexlit : CMap Nat
  lexlitStack : List (CMap Nat)
  opensel : OpenSelections
  openselStack : List OpenSelections
  ctr : Nat
  deriving DecidableEq, Repr

/-- A freshly constructed `SimpleCallback`: all maps and stacks empty. -/
def SCState.init : SCState :=
  { lexlit := [], lexlitStack := [], opensel := { opensect := [], openit := [] },
    openselStack := [], ctr := 0 }

/-- The base name of a point, with any uniqueness tag removed. -/
def Pt.baseName : Pt → Nat
  | Pt.base n => n
  | Pt.inst n _ => n

/-- `true` when any uniqueness tag on the point is below the counter `c`. -/
def Pt.idBelow : Pt → Nat → Bool
  | Pt.base _, _ => true
  | Pt.inst _ i, c => decide (i < c)

/-- The section produced by instantiating `s` with uniqueness tag `i`. -/
def instSect (s : Sect) (i : Nat) : Sect :=
  { point := Pt.inst s.point.baseName i, conns := s.conns }

/-- Modelled from the spec: `LinkStyle::create_unique_section` (the file
`LinkStyle.cc` is not part of this source slice; only its caller is).  The
spec says the lexicon phase "creates a fresh section instance (a unique
copy, so the same dictionary entry may be attached more than once in the
assembly)".  The fresh instance is modelled by tagging the section's point
with a counter that increments on every copy, so every copy is structurally
distinct from every older section. -/
def create_unique_section (st : SCState) (sect : Sect) : Sect × SCState :=
  (instSect sect st.ctr, { st with ctr := st.ctr + 1 })

/-- `SimpleCallback::select_from_lexis`: resume or start the dictionary
cursor for `to_con` and return a unique copy of the next dictionary
candidate.  `dict to_con` is `_dict.sections(to_con)`. -/
def select_from_lexis (dict : Conn → List Sect) (st : SCState)
    (fm_sect : Sect) (to_con : Conn) : Option Sect × SCState :=
  let to_sects := dict to_con
  let curit := CMap.getD st.lexlit to_con 0
  if curit = 0 then
    if to_sects.length = 0 then (none, st)
    else
      let st1 := { st with lexlit := CMap.set st.lexlit to_con 1 }
      let p := create_unique_section st1 (to_sects.getD 0 dummySect)
      (some p.1, p.2)
  else if to_sects.length ≤ curit then
    (none, { st with lexlit := CMap.erase st.lexlit to_con })
  else
    let st1 := { st with lexlit := CMap.set st.lexlit to_con (curit + 1) }
    let p := create_unique_section st1 (to_sects.getD curit dummySect)
    (some p.1, p.2)

/-- The body of the `while (true)` loop inside `SimpleCallback::check_self`,
with an explicit fuel so the recursion is structural (the fuel is an
embedding artifact: called with fuel `to_sects.length - fit` it never runs
out, because the loop re-enters only while `fit < to_sects.length`). -/
def check_self_go (to_sects : List Sect) (fm_sect : Sect) (to_con : Conn) :
    Nat → CMap Nat → Nat → Option Sect × CMap Nat
  | fuel, openit, fit =>
    if to_sects.length ≤ fit then (none, openit)
    else if to_sects.getD fit dummySect = fm_sect then
      match fuel with
      | 0 => (none, openit)
      | fuel' + 1 =>
        check_self_go to_sects fm_sect to_con fuel' (CMap.set openit to_con (fit + 1)) (fit + 1)
    else (some (to_sects.getD fit dummySect), openit)

/-- The `while (true)` loop inside `SimpleCallback::check_self`: skip
candidates structurally equal to `fm_sect`, keeping the cursor in step. -/
def check_self_loop (to_sects : List Sect) (fm_sect : Sect) (to_con : Conn)
    (openit : CMap Nat) (fit : Nat) : Option Sect × CMap Nat :=
  check_self_go to_sects fm_sect to_con (to_sects.length - fit) openit fit

/-- `SimpleCallback::check_self`: return the candidate at the cursor,
advancing the cursor, and (unless `allow` — the `allow_self_connections`
flag — is set) skipping candidates structurally equal to `fm_sect`. -/
def check_self (allow : Bool) (openit : CMap Nat) (to_sects : List Sect)
    (fm_sect : Sect) (to_con : Conn) (fit : Nat) : Option Sect × CMap Nat :=
  if to_sects.length ≤ fit then (none, openit)
  else
    let openit1 := CMap.set openit to_con (CMap.getD openit to_con 0 + 1)
    if allow then (some (to_sects.getD fit dummySect), openit1)
    else check_self_loop to_sects fm_sect to_con openit1 fit

/-- The open sections of `frame` exposing a connector structurally equal to
`to_con`, in frame order — the list `to_sects` built by
`SimpleCallback::select_from_open` (a section appears once per matching
connector occurrence, as in the source's nested loop). -/
def openCandidates (frame : Frame) (to_con : Conn) : List Sect :=
  frame.openSections.flatMap
    (fun s => (s.conns.filter (fun c => c = to_con)).map (fun _ => s))

/-- `SimpleCallback::select_from_open`: resume the open-section cursor for
`to_con` if one exists (reading the candidate list from `_opensect`, whose
`operator[]` default-inserts an empty list when the key is absent), else
build the candidate list from the frame's open sections and start
iterating. -/
def select_from_open (allow : Bool) (frame : Frame) (st : SCState)
    (fm_sect : Sect) (to_con : Conn) : Option Sect × SCState :=
  let fit := CMap.getD st.opensel.openit to_con 0
  if 0 < fit then
    match CMap.get? st.opensel.opensect to_con with
    | some to_sects =>
      let p := check_self allow st.opensel.openit to_sects fm_sect to_con fit
      (p.1, { st with opensel := { opensect := st.opensel.opensect, openit := p.2 } })
    | none =>
      let opensect1 := CMap.set st.opensel.opensect to_con []
      let p := check_self allow st.opensel.openit [] fm_sect to_con fit
      (p.1, { st with opensel := { opensect := opensect1, openit := p.2 } })
  else
    let to_sects := openCandidates frame to_con
    if to_sects.length = 0 then (none, st)
    else
      let openit0 := CMap.set st.opensel.openit to_con 0
      let p := check_self allow openit0 to_sects fm_sect to_con 0
      (p.1, { st with opensel := { opensect := st.opensel.opensect, openit := p.2 } })

/-- `SimpleCallback::select`: first try to attach to an existing open
section; if the open phase yields nothing and `to_con` is a known key of
`_opensect`, report no candidate; otherwise fall through to the lexicon. -/
def select (dict : Conn → List Sect) (allow : Bool) (frame : Frame)
    (st : SCState) (fm_sect : Sect) (to_con : Conn) : Option Sect × SCState :=
  let p := select_from_open allow frame st fm_sect to_con
  match p.1 with
  | some s => (some s, p.2)
  | none =>
    if CMap.containsKey p.2.opensel.opensect to_con then (none, p.2)
    else select_from_lexis dict p.2 fm_sect to_con

/-- `SimpleCallback::push_frame`: save the open-selection state on its
stack and clear it. -/
def push_frame (st : SCState) : SCState :=
  { st with openselStack := st.opensel :: st.openselStack,
            opensel := { opensect := [], openit := [] } }

/-- `SimpleCallback::pop_frame`: restore the open-selection state from its
stack.  An empty stack is a stack underflow (`std::stack::top` on an empty
stack is undefined behavior in the source); the model yields no state. -/
def pop_frame (st : SCState) : Option SCState :=
  match st.openselStack with
  | [] => none
  | o :: rest => some { st with opensel := o, openselStack := rest }

/-- `SimpleCallback::push_odometer`: save the lexicon cursor map on its
stack and clear it. -/
def push_odometer (st : SCState) : SCState :=
  { st with lexlitStack := st.lexlit :: st.lexlitStack, lexlit := [] }

/-- `SimpleCallback::pop_odometer`: restore the lexicon cursor map from its
stack.  An empty stack is a stack underflow, as for `pop_frame`. -/
def pop_odometer (st : SCState) : Option SCState :=
  match st.lexlitStack with
  | [] => none
  | l :: rest => some { st with lexlit := l, lexlitStack := rest }

/-- The outputs and final state of `n` successive `select` calls with the
same arguments. -/
def selectTrace (dict : Conn → List Sect) (allow : Bool) (frame : Frame)
    (fm_sect : Sect) (to_con : Conn) : Nat → SCState → List (Option Sect) × SCState
  | 0, st => ([], st)
  | n + 1, st =>
    let p := select dict allow frame st fm_sect to_con
    let q := selectTrace dict allow frame fm_sect to_con n p.2
    (p.1 :: q.1, q.2)

/-- The arguments of one `select` call, for sequences of calls whose
arguments vary. -/
structure CallArgs where
  dict : Conn → List Sect
  allow : Bool
  frame : Frame
  fm_sect : Sect
  to_con : Conn

/-- The state after a sequence of `select` calls. -/
def runSelects (calls : List CallArgs) (st : SCState) : SCState :=
  calls.foldl (fun s c => (select c.dict c.allow c.frame s c.fm_sect c.to_con).2) st

/-- Open section 1 of the two-open-sections scenario. -/
def exS1 : Sect := { point := Pt.base 1, conns := [1] }

/-- Open section 2 of the two-open-sections scenario. -/
def exS2 : Sect := { point := Pt.base 2, conns := [1] }

/-- The from-section of the two-open-sections scenario, distinct from both
open sections. -/
def exF : Sect := { point := Pt.base 3, conns := [1] }

/-- A frame holding the two open sections. -/
def exFrame12 : Frame := { openSections := [exS1, exS2] }

/-- A dictionary with one section for every connector, to show the lexicon
is not consulted. -/
def exDict1 : Conn → List Sect := fun _ => [{ point := Pt.base 4, conns := [1] }]

/-- Dictionary entry `A` of the spec's end-to-end scenario. -/
def exA : Sect := { point := Pt.base 10, conns := [1] }

/-- Dictionary entry `B` of the spec's end-to-end scenario. -/
def exB : Sect := { point := Pt.base 20, conns := [1] }

/-- The two-entry dictionary of the spec's end-to-end scenario: connector 1
maps to the ordered sections `[A, B]`. -/
def exDictAB : Conn → List Sect := fun c => if c = 1 then [exA, exB] else []

/-- A frame with no open sections. -/
def exFrameE : Frame := { openSections := [] }

/-- The from-section of the self-connection eligibility scenario. -/
def exFmC : Sect := { point := Pt.base 5, conns := [7] }

/-- A frame whose only open section is the from-section itself. -/
def exFrameC : Frame := { openSections := [exFmC] }

/-- An empty dictionary. -/
def exDictE : Conn → List Sect := fun _ => []

/-- The open-candidate map entry for a connector is absent or empty.  Every
reachable state satisfies this: `select_from_open` never stores a built
candidate list in `_opensect`; the only writes are `operator[]`
default-inserts of the empty list. -/
def opensectBenign (st : SCState) (to_con : Conn) : Prop :=
  CMap.get? st.opensel.opensect to_con = none ∨
  CMap.get? st.opensel.opensect to_con = some []

/-- The outputs of the lexicon phase run to exhaustion: one fresh unique
copy per dictionary entry, tagged with successive counter values. -/
def lexisOutputs : List Sect → Nat → List (Option Sect)
  | [], _ => []
  | s :: rest, c => some (instSect s c) :: lexisOutputs rest (c + 1)

theorem CMap.get?_set_self {α : Type} (m : CMap α) (key : Conn) (v : α) :
    CMap.get? (CMap.set m key v) key = some v := by
  simp [CMap.set, CMap.get?]

theorem CMap.getD_set_self {α : Type} (m : CMap α) (key : Conn) (v d : α) :
    CMap.getD (CMap.set m key v) key d = v := by
  simp only [CMap.getD, CMap.get?_set_self, Option.getD_some]

theorem check_self_go_some_ne (to_sects : List Sect) (fm_sect : Sect) (to_con : Conn) :
    ∀ (fuel : Nat) (openit : CMap Nat) (fit : Nat) (s : Sect),
      (check_self_go to_sects fm_sect to_con fuel openit fit).1 = some s → s ≠ fm_sect := by
  intro fuel
  induction fuel with
  | zero =>
    intro openit fit s h
    rw [check_self_go] at h
    split at h
    · simp at h
    · split at h
      · simp at h
      · next hne =>
        have hts : to_sects.getD fit dummySect = s := by simpa using h
        rw [← hts]
        exact hne
  | succ fuel ih =>
    intro openit fit s h
    rw [check_self_go] at h
    split at h
    · simp at h
    · split at h
      · exact ih _ _ s h
      · next hne =>
        have hts : to_sects.getD fit dummySect = s := by simpa using h
        rw [← hts]
        exact hne

theorem check_self_loop_some_ne (to_sects : List Sect) (fm_sect : Sect) (to_con : Conn)
    (openit : CMap Nat) (fit : Nat) :
    ∀ s, (check_self_loop to_sects fm_sect to_con openit fit).1 = some s → s ≠ fm_sect :=
  fun s h => check_self_go_some_ne to_sects fm_sect to_con _ openit fit s h

theorem check_self_go_all_self (to_sects : List Sect) (fm_sect : Sect) (to_con : Conn)
    (hall : ∀ x ∈ to_sects, x = fm_sect) :
    ∀ (fuel : Nat) (openit : CMap Nat) (fit : Nat),
      (check_self_go to_sects fm_sect to_con fuel openit fit).1 = none := by
  intro fuel
  induction fuel with
  | zero =>
    intro openit fit
    rw [check_self_go]
    split
    · rfl
    · next hle =>
      split
      · rfl
      · next hne =>
        exfalso
        apply hne
        apply hall
        have hlt : fit < to_sects.length := by omega
        rw [List.getD_eq_getElem _ _ hlt]
        exact List.getElem_mem hlt
  | succ fuel ih =>
    intro openit fit
    rw [check_self_go]
    split
    · rfl
    · next hle =>
      split
      · exact ih _ _
      · next hne =>
        exfalso
        apply hne
        apply hall
        have hlt : fit < to_sects.length := by omega
        rw [List.getD_eq_getElem _ _ hlt]
        exact List.getElem_mem hlt

theorem check_self_loop_all_self (to_sects : List Sect) (fm_sect : Sect) (to_con : Conn)
    (openit : CMap Nat) (fit : Nat)
    (hall : ∀ x ∈ to_sects, x = fm_sect) :
    (check_self_loop to_sects fm_sect to_con openit fit).1 = none :=
  check_self_go_all_self to_sects fm_sect to_con hall _ openit fit

theorem check_self_go_pos (to_sects : List Sect) (fm_sect : Sect) (to_con : Conn) :
    ∀ (fuel : Nat) (openit : CMap Nat) (fit : Nat),
      0 < CMap.getD openit to_con 0 →
      0 < CMap.getD (check_self_go to_sects fm_sect to_con fuel openit fit).2 to_con 0 := by
  intro fuel
  induction fuel with
  | zero =>
    intro openit fit hpos
    rw [check_self_go]
    split
    · exact hpos
    · split
      · exact hpos
      · exact hpos
  | succ fuel ih =>
    intro openit fit hpos
    rw [check_self_go]
    split
    · exact hpos
    · split
      · apply ih
        rw [CMap.getD_set_self]
        omega
      · exact hpos

theorem check_self_loop_pos (to_sects : List Sect) (fm_sect : Sect) (to_con : Conn)
    (openit : CMap Nat) (fit : Nat) :
    0 < CMap.getD openit to_con 0 →
    0 < CMap.getD (check_self_loop to_sects fm_sect to_con openit fit).2 to_con 0 :=
  fun hpos => check_self_go_pos to_sects fm_sect to_con _ openit fit hpos

theorem check_self_false_some_ne (openit : CMap Nat) (to_sects : List Sect)
    (fm_sect : Sect) (to_con : Conn) (fit : Nat) :
    ∀ s, (check_self false openit to_sects fm_sect to_con fit).1 = some s → s ≠ fm_sect := by
  intro s h
  rw [check_self] at h
  split at h
  · simp at h
  · simp only [Bool.false_eq_true, if_false] at h
    exact check_self_loop_some_ne _ _ _ _ _ s h

theorem check_self_some_pos (allow : Bool) (openit : CMap Nat) (to_sects : List Sect)
    (fm_sect : Sect) (to_con : Conn) (fit : Nat) :
    ∀ s, (check_self allow openit to_sects fm_sect to_con fit).1 = some s →
      0 < CMap.getD (check_self allow openit to_sects fm_sect to_con fit).2 to_con 0 := by
  intro s h
  rw [check_self] at h
  rw [check_self]
  split at h
  · simp at h
  · next hle =>
    rw [if_neg hle]
    simp only at h ⊢
    split
    · rw [CMap.getD_set_self]; omega
    · apply check_self_loop_pos
      rw [CMap.getD_set_self]
      omega

theorem check_self_empty (allow : Bool) (openit : CMap Nat)
    (fm_sect : Sect) (to_con : Conn) (fit : Nat) :
    check_self allow openit [] fm_sect to_con fit = (none, openit) := by
  rw [check_self, if_pos (by simp)]

theorem select_from_open_preserves (allow : Bool) (frame : Frame) (st : SCState)
    (fm_sect : Sect) (to_con : Conn) :
    (select_from_open allow frame st fm_sect to_con).2.lexlit = st.lexlit ∧
    (select_from_open allow frame st fm_sect to_con).2.lexlitStack = st.lexlitStack ∧
    (select_from_open allow frame st fm_sect to_con).2.openselStack = st.openselStack ∧
    (select_from_open allow frame st fm_sect to_con).2.ctr = st.ctr := by
  rw [select_from_open]
  split
  · split <;> exact ⟨rfl, rfl, rfl, rfl⟩
  · dsimp only
    split
    · exact ⟨rfl, rfl, rfl, rfl⟩
    · exact ⟨rfl, rfl, rfl, rfl⟩

theorem select_from_lexis_preserves (dict : Conn → List Sect) (st : SCState)
    (fm_sect : Sect) (to_con : Conn) :
    (select_from_lexis dict st fm_sect to_con).2.opensel = st.opensel ∧
    (select_from_lexis dict st fm_sect to_con).2.openselStack = st.openselStack ∧
    (select_from_lexis dict st fm_sect to_con).2.lexlitStack = st.lexlitStack := by
  rw [select_from_lexis]
  dsimp only
  split
  · split
    · exact ⟨rfl, rfl, rfl⟩
    · exact ⟨rfl, rfl, rfl⟩
  · split
    · exact ⟨rfl, rfl, rfl⟩
    · exact ⟨rfl, rfl, rfl⟩

theorem select_preserves_stacks (dict : Conn → List Sect) (allow : Bool) (frame : Frame)
    (st : SCState) (fm_sect : Sect) (to_con : Conn) :
    (select dict allow frame st fm_sect to_con).2.openselStack = st.openselStack ∧
    (select dict allow frame st fm_sect to_con).2.lexlitStack = st.lexlitStack := by
  rw [select]
  have ho := select_from_open_preserves allow frame st fm_sect to_con
  split
  · exact ⟨ho.2.2.1, ho.2.1⟩
  · split
    · exact ⟨ho.2.2.1, ho.2.1⟩
    · have hl := select_from_lexis_preserves dict
        (select_from_open allow frame st fm_sect to_con).2 fm_sect to_con
      exact ⟨hl.2.1.trans ho.2.2.1, hl.2.2.trans ho.2.1⟩

theorem runSelects_openselStack (calls : List CallArgs) :
    ∀ st : SCState, (runSelects calls st).openselStack = st.openselStack := by
  induction calls with
  | nil => intro st; rfl
  | cons c rest ih =>
    intro st
    show (runSelects rest (select c.dict c.allow c.frame st c.fm_sect c.to_con).2).openselStack
        = st.openselStack
    rw [ih]
    exact (select_preserves_stacks c.dict c.allow c.frame st c.fm_sect c.to_con).1

/-- C7: `push_odometer` saves the lexicon cursor map on its stack and clears
it, leaving the frame-scoped state untouched, and the matching
`pop_odometer` restores it exactly as saved; `push_frame` saves the
open-section cursor and candidate-list state on its stack and clears it,
leaving the odometer-scoped state untouched, and the matching `pop_frame`
restores it exactly as saved; each pop restores only its own scope's
state. -/
theorem c7_push_pop_scoping :
    (∀ st : SCState, push_odometer st =
      { st with lexlit := [], lexlitStack := st.lexlit :: st.lexlitStack }) ∧
    (∀ st : SCState, pop_odometer (push_odometer st) = some st) ∧
    (∀ st : SCState, push_frame st =
      { st with opensel := { opensect := [], openit := [] },
                openselStack := st.opensel :: st.openselStack }) ∧
    (∀ st : SCState, pop_frame (push_frame st) = some st) ∧
    (∀ (st : SCState) (o : OpenSelections) (r : List OpenSelections),
      pop_frame { st with openselStack := o :: r } =
        some { st with opensel := o, openselStack := r }) ∧
    (∀ (st : SCState) (l : CMap Nat) (r : List (CMap Nat)),
      pop_odometer { st with lexlitStack := l :: r } =
        some { st with lexlit := l, lexlitStack := r }) :=
  ⟨fun _ => rfl, fun _ => rfl, fun _ => rfl, fun _ => rfl,
   fun _ _ _ => rfl, fun _ _ _ => rfl⟩

/-- C6 (amended): after `push_frame`, any sequence of `select` calls, and
the matching `pop_frame`, the open-section selection state and its stack
are restored exactly to their values before the `push_frame`.  (The lexicon
cursors are odometer-scoped, not frame-scoped: `pop_frame` does not restore
them, as the counterexample shows.) -/
theorem c6_amended_open_state_restored (calls : List CallArgs) (st : SCState) :
    pop_frame (runSelects calls (push_frame st)) =
      some { runSelects calls (push_frame st) with
               opensel := st.opensel, openselStack := st.openselStack } := by
  have h : (runSelects calls (push_frame st)).openselStack
      = st.opensel :: st.openselStack := by
    rw [runSelects_openselStack]
    rfl
  rw [pop_frame, h]

/-- C1 (code-bug evidence): with two open sections `exS1`, `exS2` both
exposing connector 1 and a from-section distinct from both, the first
`select` returns `exS1` but the second returns the no-candidate sentinel
even though `exS2` was never returned: the open-section phase does not
behave as a resumable cursor over its candidate list, because
`select_from_open` never stores the built candidate list in `_opensect`
and the resume path reads a default-inserted empty list. -/
theorem c1_open_iteration_drops_second_candidate :
    openCandidates exFrame12 1 = [exS1, exS2] ∧
    (selectTrace exDict1 false exFrame12 exF 1 2 SCState.init).1 = [some exS1, none] := by
  exact ⟨by decide, by decide⟩

/-- C2 (code-bug evidence): in the same scenario, after the first `select`
returns an open-section candidate, the open-candidate map `_opensect` holds
no entry for the connector (the built list `[exS1, exS2]` was never
cached); after the second call it holds the default-inserted empty list,
not the built list. -/
theorem c2_open_candidates_not_cached :
    CMap.get? ((selectTrace exDict1 false exFrame12 exF 1 1 SCState.init).2).opensel.opensect 1
      = none ∧
    CMap.get? ((selectTrace exDict1 false exFrame12 exF 1 2 SCState.init).2).opensel.opensect 1
      = some [] ∧
    openCandidates exFrame12 1 = [exS1, exS2] := by
  exact ⟨by decide, by decide, by decide⟩

/-- C3 (counterexample): in the spec's end-to-end scenario (dictionary
`[A, B]` on connector 1, `allow_self_connections = false`, empty
open-section set, from-section `A`), the first two `select` calls do not
return `B` then the sentinel: `select_from_lexis` applies no
self-connection filter, so the first call returns a fresh unique copy of
`A`, and the second a fresh copy of `B`. -/
theorem c3_first_lexis_pick_not_B :
    (selectTrace exDictAB false exFrameE exA 1 2 SCState.init).1 ≠ [some exB, none] ∧
    (selectTrace exDictAB false exFrameE exA 1 1 SCState.init).1 ≠ [some exB] := by
  exact ⟨by decide, by decide⟩

/-- C3 (amended): in the spec's end-to-end scenario the three successive
`select` calls return a fresh unique copy of `A` (the lexicon applies no
self-connection filter; the copy is structurally distinct from the
from-section), then a fresh unique copy of `B`, then the no-candidate
sentinel. -/
theorem c3_amended_lexis_copies_in_order :
    (selectTrace exDictAB false exFrameE exA 1 3 SCState.init).1 =
      [some (instSect exA 0), some (instSect exB 1), none] := by
  decide

/-- C5 (counterexample): with dictionary `[A, B]` on connector 1 and
from-section `A`, only one dictionary candidate (`B`) is non-self, yet the
first two `select` calls both return a candidate — a fresh copy of the
self entry `A` is returned too, before `B`'s copy and before any
sentinel. -/
theorem c5_self_candidate_also_returned :
    ((exDictAB 1).filter (fun s => decide (s ≠ exA))).length = 1 ∧
    (selectTrace exDictAB false exFrameE exA 1 2 SCState.init).1 =
      [some (instSect exA 0), some (instSect exB 1)] ∧
    instSect exA 0 ≠ exA ∧ instSect exA 0 ≠ exB := by
  exact ⟨by decide, by decide, by decide, by decide⟩

/-- C6 (counterexample): the complete cursor state is not restored by
`pop_frame`: a `select` between `push_frame` and `pop_frame` that falls
through to the lexicon advances the lexicon cursor `_lexlit`, and
`pop_frame` restores only the open-selection state, so after the pop the
lexicon cursor map differs from its value before the push. -/
theorem c6_lexicon_cursor_not_restored :
    Option.map SCState.lexlit
        (pop_frame ((select exDictAB false exFrameE (push_frame SCState.init) exF 1).2))
      = some [(1, 1)] ∧
    SCState.init.lexlit = [] := by
  exact ⟨by decide, by decide⟩

theorem select_from_lexis_some_point (dict : Conn → List Sect) (st : SCState)
    (fm_sect : Sect) (to_con : Conn) (s : Sect) :
    (select_from_lexis dict st fm_sect to_con).1 = some s →
    ∃ b, s.point = Pt.inst b st.ctr := by
  intro h
  rw [select_from_lexis] at h
  dsimp only at h
  split at h
  · split at h
    · simp at h
    · simp only [create_unique_section, instSect] at h
      have hs := Option.some.inj h
      exact ⟨_, by rw [← hs]⟩
  · split at h
    · simp at h
    · simp only [create_unique_section, instSect] at h
      have hs := Option.some.inj h
      exact ⟨_, by rw [← hs]⟩

theorem select_from_open_false_some_ne (frame : Frame) (st : SCState)
    (fm_sect : Sect) (to_con : Conn) (s : Sect) :
    (select_from_open false frame st fm_sect to_con).1 = some s → s ≠ fm_sect := by
  intro h
  rw [select_from_open] at h
  dsimp only at h
  split at h
  · split at h
    · exact check_self_false_some_ne _ _ _ _ _ s (by simpa using h)
    · exact check_self_false_some_ne _ _ _ _ _ s (by simpa using h)
  · split at h
    · simp at h
    · exact check_self_false_some_ne _ _ _ _ _ s (by simpa using h)

/-- C4: with `allow_self_connections = false` no `select` call returns a
section structurally equal to the from-section (the hypothesis says every
uniqueness tag inside the from-section is below the instance counter, which
holds for every section the engine itself has produced); with
`allow_self_connections = true` such sections are eligible: in a concrete
scenario whose only open candidate is the from-section itself, `select`
returns exactly the from-section. -/
theorem c4_self_connection_filter :
    (∀ (dict : Conn → List Sect) (frame : Frame) (st : SCState) (fm_sect : Sect)
       (to_con : Conn) (s : Sect),
       Pt.idBelow fm_sect.point st.ctr = true →
       (select dict false frame st fm_sect to_con).1 = some s →
       s ≠ fm_sect) ∧
    (select exDictE true exFrameC SCState.init exFmC 7).1 = some exFmC := by
  constructor
  · intro dict frame st fm_sect to_con s hid h
    rw [select] at h
    cases hopen : (select_from_open false frame st fm_sect to_con).1 with
    | some t =>
      rw [hopen] at h
      simp only at h
      have hts : t = s := by simpa using h
      rw [← hts]
      exact select_from_open_false_some_ne frame st fm_sect to_con t hopen
    | none =>
      rw [hopen] at h
      simp only at h
      split at h
      · simp at h
      · obtain ⟨b, hb⟩ := select_from_lexis_some_point dict _ fm_sect to_con s h
        have hctr : (select_from_open false frame st fm_sect to_con).2.ctr = st.ctr :=
          (select_from_open_preserves false frame st fm_sect to_con).2.2.2
        rw [hctr] at hb
        intro hsfm
        rw [hsfm] at hb
        cases hfm : fm_sect.point with
        | base n => rw [hfm] at hb; exact Pt.noConfusion hb
        | inst n i =>
          rw [hfm] at hid
          simp only [Pt.idBelow, decide_eq_true_eq] at hid
          rw [hfm] at hb
          have : i = st.ctr := (Pt.inst.injEq _ _ _ _).mp hb |>.2
          omega
  · decide

theorem select_from_lexis_empty_dict (dict : Conn → List Sect) (st : SCState)
    (fm_sect : Sect) (to_con : Conn) (hd : dict to_con = []) :
    (select_from_lexis dict st fm_sect to_con).1 = none := by
  rw [select_from_lexis]
  dsimp only
  rw [hd]
  simp only [List.length_nil]
  split
  · simp
  · simp

theorem select_from_lexis_exhausted (dict : Conn → List Sect) (st : SCState)
    (fm_sect : Sect) (to_con : Conn)
    (hk1 : 1 ≤ CMap.getD st.lexlit to_con 0)
    (hk2 : (dict to_con).length ≤ CMap.getD st.lexlit to_con 0) :
    (select_from_lexis dict st fm_sect to_con).1 = none := by
  rw [select_from_lexis]
  dsimp only
  rw [if_neg (by omega), if_pos hk2]

theorem select_from_open_no_candidates (allow : Bool) (frame : Frame) (st : SCState)
    (fm_sect : Sect) (to_con : Conn)
    (hoi : CMap.getD st.opensel.openit to_con 0 = 0)
    (hoc : openCandidates frame to_con = []) :
    select_from_open allow frame st fm_sect to_con = (none, st) := by
  rw [select_from_open]
  dsimp only
  rw [if_neg (by omega), hoc]
  simp

theorem select_from_open_all_self (frame : Frame) (st : SCState)
    (fm_sect : Sect) (to_con : Conn)
    (hoi : CMap.getD st.opensel.openit to_con 0 = 0)
    (hall : ∀ x ∈ openCandidates frame to_con, x = fm_sect) :
    (select_from_open false frame st fm_sect to_con).1 = none := by
  rw [select_from_open]
  dsimp only
  rw [if_neg (by omega)]
  split
  · rfl
  · rw [check_self]
    split
    · rfl
    · simp only [Bool.false_eq_true, if_false]
      exact check_self_loop_all_self _ _ _ _ _ hall

/-- C8: `select` signals "no candidate" with the explicit sentinel rather
than an error on every degenerate input: when the dictionary has no
sections for the connector and no open section matches it; when every open
candidate is a self-connection and self-connections are disallowed (with an
empty dictionary behind it); and when the lexicon cursor has reached the
end of the dictionary's candidate list. -/
theorem c8_degenerate_inputs_yield_none :
    ∀ (dict : Conn → List Sect) (allow : Bool) (frame : Frame) (st : SCState)
      (fm_sect : Sect) (to_con : Conn),
      (dict to_con = [] →
        CMap.getD st.opensel.openit to_con 0 = 0 →
        openCandidates frame to_con = [] →
        (select dict allow frame st fm_sect to_con).1 = none) ∧
      ((∀ x ∈ openCandidates frame to_con, x = fm_sect) →
        CMap.getD st.opensel.openit to_con 0 = 0 →
        dict to_con = [] →
        (select dict false frame st fm_sect to_con).1 = none) ∧
      (openCandidates frame to_con = [] →
        CMap.getD st.opensel.openit to_con 0 = 0 →
        1 ≤ CMap.getD st.lexlit to_con 0 →
        (dict to_con).length ≤ CMap.getD st.lexlit to_con 0 →
        (select dict allow frame st fm_sect to_con).1 = none) := by
  intro dict allow frame st fm_sect to_con
  refine ⟨?_, ?_, ?_⟩
  · intro hd hoi hoc
    rw [select, select_from_open_no_candidates allow frame st fm_sect to_con hoi hoc]
    simp only
    split
    · rfl
    · exact select_from_lexis_empty_dict dict st fm_sect to_con hd
  · intro hall hoi hd
    rw [select]
    cases hopen : (select_from_open false frame st fm_sect to_con).1 with
    | some t =>
      rw [select_from_open_all_self frame st fm_sect to_con hoi hall] at hopen
      exact Option.noConfusion hopen
    | none =>
      dsimp only
      split
      · rfl
      · exact select_from_lexis_empty_dict dict _ fm_sect to_con hd
  · intro hoc hoi hk1 hk2
    rw [select, select_from_open_no_candidates allow frame st fm_sect to_con hoi hoc]
    simp only
    split
    · rfl
    · exact select_from_lexis_exhausted dict st fm_sect to_con hk1 hk2

/-- Witness for C8: a connector with an empty dictionary, no open sections
and fresh cursors yields the sentinel. -/
theorem c8_witness_empty_everything :
    (select exDictE false exFrameE SCState.init exF 1).1 = none :=
  (c8_degenerate_inputs_yield_none exDictE false exFrameE SCState.init exF 1).1 rfl rfl rfl

theorem select_from_open_some_marks_done (allow : Bool) (frame : Frame) (st : SCState)
    (fm_sect : Sect) (to_con : Conn) (s : Sect)
    (hben : opensectBenign st to_con)
    (h : (select_from_open allow frame st fm_sect to_con).1 = some s) :
    0 < CMap.getD (select_from_open allow frame st fm_sect to_con).2.opensel.openit to_con 0 ∧
    opensectBenign (select_from_open allow frame st fm_sect to_con).2 to_con := by
  rw [select_from_open] at h ⊢
  by_cases hfit : 0 < CMap.getD st.opensel.openit to_con 0
  · rw [if_pos hfit] at h ⊢
    cases hben with
    | inl hnone =>
      rw [hnone] at h
      dsimp only at h
      rw [check_self_empty] at h
      simp at h
    | inr hsome =>
      rw [hsome] at h
      dsimp only at h
      rw [check_self_empty] at h
      simp at h
  · rw [if_neg hfit] at h ⊢
    dsimp only at h ⊢
    by_cases hlen : (openCandidates frame to_con).length = 0
    · rw [if_pos hlen] at h
      exact Option.noConfusion h
    · rw [if_neg hlen] at h ⊢
      dsimp only at h ⊢
      refine ⟨check_self_some_pos _ _ _ _ _ _ s h, ?_⟩
      exact hben

theorem select_from_open_done (allow : Bool) (frame : Frame) (st : SCState)
    (fm_sect : Sect) (to_con : Conn)
    (hpos : 0 < CMap.getD st.opensel.openit to_con 0)
    (hben : opensectBenign st to_con) :
    (select_from_open allow frame st fm_sect to_con).1 = none ∧
    (select_from_open allow frame st fm_sect to_con).2.opensel.openit = st.opensel.openit ∧
    CMap.get? (select_from_open allow frame st fm_sect to_con).2.opensel.opensect to_con
      = some [] ∧
    (select_from_open allow frame st fm_sect to_con).2.lexlit = st.lexlit := by
  rw [select_from_open]
  rw [if_pos hpos]
  cases hben with
  | inl hnone =>
    rw [hnone]
    dsimp only
    rw [check_self_empty]
    exact ⟨rfl, rfl, CMap.get?_set_self _ _ _, rfl⟩
  | inr hsome =>
    rw [hsome]
    dsimp only
    rw [check_self_empty]
    exact ⟨rfl, rfl, hsome, rfl⟩

theorem select_done_step (dict : Conn → List Sect) (allow : Bool) (frame : Frame)
    (st : SCState) (fm_sect : Sect) (to_con : Conn)
    (hpos : 0 < CMap.getD st.opensel.openit to_con 0)
    (hben : opensectBenign st to_con) :
    (select dict allow frame st fm_sect to_con).1 = none ∧
    0 < CMap.getD (select dict allow frame st fm_sect to_con).2.opensel.openit to_con 0 ∧
    opensectBenign (select dict allow frame st fm_sect to_con).2 to_con ∧
    (select dict allow frame st fm_sect to_con).2.lexlit = st.lexlit := by
  obtain ⟨h1, h2, h3, h4⟩ := select_from_open_done allow frame st fm_sect to_con hpos hben
  rw [select]
  cases hopen : (select_from_open allow frame st fm_sect to_con).1 with
  | some t => rw [h1] at hopen; exact Option.noConfusion hopen
  | none =>
    dsimp only
    have hck : CMap.containsKey
        (select_from_open allow frame st fm_sect to_con).2.opensel.opensect to_con = true := by
      rw [CMap.containsKey, h3]
      rfl
    rw [if_pos hck]
    exact ⟨rfl, by rw [h2]; exact hpos, Or.inr h3, h4⟩

theorem selectTrace_done (dict : Conn → List Sect) (allow : Bool) (frame : Frame)
    (fm_sect : Sect) (to_con : Conn) :
    ∀ (n : Nat) (st : SCState),
      0 < CMap.getD st.opensel.openit to_con 0 →
      opensectBenign st to_con →
      (selectTrace dict allow frame fm_sect to_con n st).1 = List.replicate n none ∧
      (selectTrace dict allow frame fm_sect to_con n st).2.lexlit = st.lexlit := by
  intro n
  induction n with
  | zero => intro st _ _; exact ⟨rfl, rfl⟩
  | succ n ih =>
    intro st hpos hben
    obtain ⟨h1, h2, h3, h4⟩ := select_done_step dict allow frame st fm_sect to_con hpos hben
    obtain ⟨ih1, ih2⟩ := ih (select dict allow frame st fm_sect to_con).2 h2 h3
    rw [selectTrace]
    dsimp only
    constructor
    · rw [List.replicate_succ, h1, ih1]
    · rw [ih2, h4]

/-- C10: once the open phase of `select` has returned an open-section
candidate for a connector (from any state whose `_opensect` entry for the
connector is absent or empty — true of every reachable state, since the
built candidate list is never stored), every later `select` for the same
connector with no intervening push/pop returns the no-candidate sentinel,
whatever its dictionary, frame and from-section arguments, and the lexicon
cursor map is never touched. -/
theorem c10_after_open_candidate_only_none :
    ∀ (allow : Bool) (frame : Frame) (st : SCState) (fm_sect : Sect) (to_con : Conn)
      (s : Sect) (dict2 : Conn → List Sect) (allow2 : Bool) (frame2 : Frame)
      (fm2 : Sect) (n : Nat),
      opensectBenign st to_con →
      (select_from_open allow frame st fm_sect to_con).1 = some s →
      (selectTrace dict2 allow2 frame2 fm2 to_con n
          (select_from_open allow frame st fm_sect to_con).2).1 = List.replicate n none ∧
      (selectTrace dict2 allow2 frame2 fm2 to_con n
          (select_from_open allow frame st fm_sect to_con).2).2.lexlit
        = (select_from_open allow frame st fm_sect to_con).2.lexlit := by
  intro allow frame st fm_sect to_con s dict2 allow2 frame2 fm2 n hben h
  obtain ⟨hpos, hben2⟩ :=
    select_from_open_some_marks_done allow frame st fm_sect to_con s hben h
  exact selectTrace_done dict2 allow2 frame2 fm2 to_con n _ hpos hben2

/-- Witness for C10: in the two-open-sections scenario the open phase
returns `exS1`; the two following `select` calls both return the sentinel
and leave the lexicon cursors untouched. -/
theorem c10_witness_two_sections :
    (selectTrace exDict1 false exFrame12 exF 1 2
        (select_from_open false exFrame12 SCState.init exF 1).2).1
      = List.replicate 2 none ∧
    (selectTrace exDict1 false exFrame12 exF 1 2
        (select_from_open false exFrame12 SCState.init exF 1).2).2.lexlit
      = (select_from_open false exFrame12 SCState.init exF 1).2.lexlit :=
  c10_after_open_candidate_only_none false exFrame12 SCState.init exF 1 exS1
    exDict1 false exFrame12 exF 2 (Or.inl rfl) (by decide)

theorem select_to_lexis (dict : Conn → List Sect) (allow : Bool) (frame : Frame)
    (st : SCState) (fm_sect : Sect) (to_con : Conn)
    (hoi : CMap.getD st.opensel.openit to_con 0 = 0)
    (hoc : openCandidates frame to_con = [])
    (hos : CMap.get? st.opensel.opensect to_con = none) :
    select dict allow frame st fm_sect to_con = select_from_lexis dict st fm_sect to_con := by
  rw [select, select_from_open_no_candidates allow frame st fm_sect to_con hoi hoc]
  dsimp only
  have hck : CMap.containsKey st.opensel.opensect to_con = false := by
    rw [CMap.containsKey, hos]
    rfl
  rw [hck]
  simp

theorem select_from_lexis_empty_start (dict : Conn → List Sect) (st : SCState)
    (fm_sect : Sect) (to_con : Conn)
    (hd : dict to_con = [])
    (hlex : CMap.getD st.lexlit to_con 0 = 0) :
    select_from_lexis dict st fm_sect to_con = (none, st) := by
  rw [select_from_lexis]
  dsimp only
  rw [hd, hlex]
  rfl

theorem select_from_lexis_start (dict : Conn → List Sect) (st : SCState)
    (fm_sect : Sect) (to_con : Conn) (s : Sect) (rest : List Sect)
    (hd : dict to_con = s :: rest)
    (hlex : CMap.getD st.lexlit to_con 0 = 0) :
    select_from_lexis dict st fm_sect to_con =
      (some (instSect s st.ctr),
       { st with lexlit := CMap.set st.lexlit to_con 1, ctr := st.ctr + 1 }) := by
  rw [select_from_lexis]
  dsimp only
  rw [hd, hlex]
  rfl

theorem select_from_lexis_step (dict : Conn → List Sect) (st : SCState)
    (fm_sect : Sect) (to_con : Conn) (k : Nat)
    (hk : CMap.getD st.lexlit to_con 0 = k)
    (h1 : 1 ≤ k) (h2 : k < (dict to_con).length) :
    select_from_lexis dict st fm_sect to_con =
      (some (instSect ((dict to_con).getD k dummySect) st.ctr),
       { st with lexlit := CMap.set st.lexlit to_con (k + 1), ctr := st.ctr + 1 }) := by
  rw [select_from_lexis]
  dsimp only
  rw [hk, if_neg (by omega), if_neg (by omega)]
  rfl

theorem select_from_lexis_end (dict : Conn → List Sect) (st : SCState)
    (fm_sect : Sect) (to_con : Conn) (k : Nat)
    (hk : CMap.getD st.lexlit to_con 0 = k)
    (h1 : 1 ≤ k) (h2 : (dict to_con).length ≤ k) :
    select_from_lexis dict st fm_sect to_con =
      (none, { st with lexlit := CMap.erase st.lexlit to_con }) := by
  rw [select_from_lexis]
  dsimp only
  rw [hk, if_neg (by omega), if_pos h2]

theorem selectTrace_lexis_run (dict : Conn → List Sect) (frame : Frame) (fm_sect : Sect)
    (to_con : Conn) (hoc : openCandidates frame to_con = []) :
    ∀ (rest pre : List Sect) (st : SCState),
      dict to_con = pre ++ rest →
      1 ≤ pre.length →
      CMap.getD st.lexlit to_con 0 = pre.length →
      CMap.getD st.opensel.openit to_con 0 = 0 →
      CMap.get? st.opensel.opensect to_con = none →
      (selectTrace dict false frame fm_sect to_con (rest.length + 1) st).1 =
        lexisOutputs rest st.ctr ++ [none] := by
  intro rest
  induction rest with
  | nil =>
    intro pre st hd h1 hlex hoi hos
    rw [selectTrace]
    dsimp only
    rw [select_to_lexis dict false frame st fm_sect to_con hoi hoc hos]
    rw [select_from_lexis_end dict st fm_sect to_con pre.length hlex h1 (by rw [hd]; simp)]
    rfl
  | cons s rest ih =>
    intro pre st hd h1 hlex hoi hos
    rw [selectTrace]
    dsimp only
    rw [select_to_lexis dict false frame st fm_sect to_con hoi hoc hos]
    have hk2 : pre.length < (dict to_con).length := by
      rw [hd]
      simp
    rw [select_from_lexis_step dict st fm_sect to_con pre.length hlex h1 hk2]
    have hgetD : (dict to_con).getD pre.length dummySect = s := by
      rw [hd, List.getD_append_right _ _ _ _ le_rfl]
      simp
    rw [hgetD]
    have hrec := ih (pre ++ [s])
      { st with lexlit := CMap.set st.lexlit to_con (pre.length + 1), ctr := st.ctr + 1 }
      (by rw [hd]; simp) (by simp) (by simp [CMap.getD_set_self]) hoi hos
    simp only [List.length_cons]
    rw [hrec]
    rfl

/-- C5 (amended): with no open-section candidates and fresh cursors for the
connector, repeated `select` calls with `allow_self_connections = false`
return a fresh unique copy of every dictionary candidate — including any
candidate structurally equal to the from-section, since the lexicon phase
applies no self-connection filter, though each returned copy itself differs
from every existing section — exactly once, in dictionary order, and then
the no-candidate sentinel.  (After the sentinel the cursor has been erased,
so a further call restarts the enumeration.) -/
theorem c5_amended_lexis_enumeration :
    ∀ (dict : Conn → List Sect) (frame : Frame) (st : SCState) (fm_sect : Sect)
      (to_con : Conn),
      openCandidates frame to_con = [] →
      CMap.getD st.opensel.openit to_con 0 = 0 →
      CMap.get? st.opensel.opensect to_con = none →
      CMap.getD st.lexlit to_con 0 = 0 →
      (selectTrace dict false frame fm_sect to_con ((dict to_con).length + 1) st).1 =
        lexisOutputs (dict to_con) st.ctr ++ [none] := by
  intro dict frame st fm_sect to_con hoc hoi hos hlex
  cases hd : dict to_con with
  | nil =>
    simp only [List.length_nil]
    rw [selectTrace]
    dsimp only
    rw [select_to_lexis dict false frame st fm_sect to_con hoi hoc hos]
    rw [select_from_lexis_empty_start dict st fm_sect to_con hd hlex]
    rfl
  | cons s rest =>
    simp only [List.length_cons]
    rw [selectTrace]
    dsimp only
    rw [select_to_lexis dict false frame st fm_sect to_con hoi hoc hos]
    rw [select_from_lexis_start dict st fm_sect to_con s rest hd hlex]
    have hrec := selectTrace_lexis_run dict frame fm_sect to_con hoc rest [s]
      { st with lexlit := CMap.set st.lexlit to_con 1, ctr := st.ctr + 1 }
      (by rw [hd]; rfl) (by simp) (by simp [CMap.getD_set_self]) hoi hos
    rw [hrec]
    rfl

/-- Witness for C5 (amended): the spec's two-entry dictionary scenario
enumerates a fresh copy of `A`, then of `B`, then the sentinel. -/
theorem c5_enumeration_witness :
    (selectTrace exDictAB false exFrameE exA 1 ((exDictAB 1).length + 1) SCState.init).1 =
      lexisOutputs (exDictAB 1) SCState.init.ctr ++ [none] :=
  c5_amended_lexis_enumeration exDictAB exFrameE SCState.init exA 1 rfl rfl rfl rfl

/-- Witness for C4: applying the filter direction at the spec's two-entry
dictionary scenario: the copy of `A` that `select` returns there differs
structurally from the from-section `A`. -/
theorem c4_filter_witness : instSect exA 0 ≠ exA :=
  c4_self_connection_filter.1 exDictAB exFrameE SCState.init exA 1 (instSect exA 0)
    rfl (by decide)
